import Mathlib

/-!
Shallow embedding of `payslip_generator.py` (Streamlit payslip generator).

Modelling conventions:
* Python floats are idealised as rationals `ℚ`.  All arithmetic inside the
  embedded functions is carried out on the integer numerator/denominator pair
  of the rational, which matches exact float semantics for the operations the
  program performs (rounding, comparison, decimal formatting) and keeps every
  definition kernel-computable.
* Python values that may be non-numeric (the `value` argument of
  `format_amount`) are modelled by `PyValue`: either a number or a string.
  Any arithmetic or numeric-format operation on a string raises in Python;
  the surrounding `try/except` of `format_amount` turns that into the
  fallback branch.
* `f"{integer:,}"` (thousands grouping) and `f"{value:,.2f}"` (two decimals
  with grouping, round-half-to-even) are embedded by explicit digit-list
  functions.  `str.replace(a, b)` for single characters is a character map.
* The exact `str(float)` / `repr(dict)` renderings are not modelled in
  detail; `pyStr` is the stand-in textual rendering used by the fallback
  `f"{value}"` (no claim depends on its exact digits, only on it being the
  raw value's plain rendering, symbol-free and non-empty for numbers).
-/

namespace PayslipGen

/-- A Python value passed to `format_amount`: a number or a (non-numeric) string. -/
inductive PyValue where
  | num (q : ℚ)
  | str (s : String)
deriving DecidableEq

/-- The decimal digit character for `d` (mirrors how Python renders base-10 digits). -/
def digitChar (d : Nat) : Char :=
  match d with
  | 0 => '0' | 1 => '1' | 2 => '2' | 3 => '3' | 4 => '4'
  | 5 => '5' | 6 => '6' | 7 => '7' | 8 => '8' | 9 => '9'
  | _ => '*'

/-- Little-endian base-10 digits of `n`; the first argument is recursion fuel
(any fuel `> log10 n` gives the same answer; callers pass `n + 1`). -/
def digitsLE : Nat → Nat → List Nat
  | 0, _ => []
  | _ + 1, 0 => []
  | fuel + 1, n + 1 => (n + 1) % 10 :: digitsLE fuel ((n + 1) / 10)

/-- Plain (ungrouped) decimal rendering of a natural number, as Python does. -/
def natStr (n : Nat) : String :=
  if n = 0 then "0" else ⟨((digitsLE (n + 1) n).map digitChar).reverse⟩

/-- Split a list into chunks of three, keeping order. -/
def chunk3 : List Char → List (List Char)
  | [] => []
  | [a] => [[a]]
  | [a, b] => [[a, b]]
  | a :: b :: c :: rest => [a, b, c] :: chunk3 rest

/-- Embedding of Python's `f"{n:,}"` for a natural number with a chosen
separator: decimal digits grouped in threes from the right. -/
def pyGroup (sep : Char) (n : Nat) : String :=
  if n = 0 then "0"
  else ⟨((List.intersperse [sep]
          (chunk3 ((digitsLE (n + 1) n).map digitChar))).flatten).reverse⟩

/-- Embedding of Python's `f"{i:,}"` for an integer (sign, then grouped digits). -/
def pyGroupInt (sep : Char) (i : ℤ) : String :=
  if i < 0 then "-" ++ pyGroup sep i.natAbs else pyGroup sep i.natAbs

/-- Round `n / d` (with `d > 0`) to the nearest integer, ties to even:
the rounding used by Python's `round` and by `"%.2f"`-style formatting. -/
def roundHalfEvenInt (n : ℤ) (d : ℕ) : ℤ :=
  let f : ℤ := n / d
  let r2 : ℤ := 2 * (n - f * d)
  if r2 < (d : ℤ) then f
  else if (d : ℤ) < r2 then f + 1
  else if f % 2 = 0 then f else f + 1

/-- Embedding of Python's `round(value)` on a float idealised as a rational. -/
def pyRound (q : ℚ) : ℤ := roundHalfEvenInt q.num q.den

/-- Two-digit zero-padded rendering of `m % 100` (the cents of `"%.2f"`). -/
def twoDigits (m : Nat) : String :=
  ⟨[digitChar (m / 10 % 10), digitChar (m % 10)]⟩

/-- Embedding of Python's `f"{value:,.2f}"`: round to two decimals
(half-to-even), group the integer digits with `,`, always two decimals,
`-` prefix when the value is negative. -/
def pyFormat2f (q : ℚ) : String :=
  let scaled : ℤ := roundHalfEvenInt (100 * q.num) q.den
  let sign : String := if q < 0 then "-" else ""
  sign ++ pyGroup ',' (scaled.natAbs / 100) ++ "." ++ twoDigits (scaled.natAbs % 100)

/-- Character-wise embedding of Python's `str.replace(a, b)` for single characters. -/
def replChar (a b : Char) (s : String) : String :=
  ⟨s.data.map (fun c => if c = a then b else c)⟩

/-- Stand-in for Python's `f"{value}"`: the plain textual rendering of the raw
value (for a string, the string itself; for a number, a sign, digits, and a
`.0` or `/den` tail -- the exact digits of `str(float)` are not modelled). -/
def pyStr : PyValue → String
  | .str s => s
  | .num q =>
    (if q < 0 then "-" else "") ++ natStr q.num.natAbs ++
      (if q.den = 1 then ".0" else "/" ++ natStr q.den)

/-- The currency symbol table of the program. -/
def CURRENCY_SYMBOLS : List (String × String) :=
  [("IDR", "Rp"), ("SGD", "S$"), ("USD", "$"), ("GBP", "£"), ("EUR", "€")]

/-- Dictionary lookup `CURRENCY_SYMBOLS[currency]` (`none` models `KeyError`). -/
def lookupSymbol (c : String) : Option String :=
  (CURRENCY_SYMBOLS.find? (fun p => p.1 = c)).map (fun p => p.2)

/-- Embedding of `format_amount(value, currency, number_format)`.
The Python body is a `try/except Exception` around: for `"IDR"`,
`int(round(value))` grouped with `,` (EU style replaces `,` by `.`), prefixed
with the symbol and one space; otherwise `f"{value:,.2f}"` with EU style
swapping `,` and `.` via the `X` trick, prefixed with
`CURRENCY_SYMBOLS[currency]` and a space.  A string value makes the numeric
operation raise, an unknown currency makes the symbol lookup raise; in both
cases the `except` branch returns `f"{value}"`. -/
def format_amount (value : PyValue) (currency : String) (number_format : String) : String :=
  match value with
  | .str _ => pyStr value
  | .num q =>
    if currency = "IDR" then
      let s := pyGroupInt ',' (pyRound q)
      let s := if number_format = "EU" then replChar ',' '.' s else s
      "Rp" ++ " " ++ s
    else
      match lookupSymbol currency with
      | none => pyStr value
      | some sym =>
        let s := pyFormat2f q
        let s := if number_format = "EU"
                 then replChar 'X' '.' (replChar '.' ',' (replChar ',' 'X' s))
                 else s
        sym ++ " " ++ s

/-! ## Module-level payslip calculations (lines 289-293 of the source) -/

/-- One labelled amount entry (allowance, deduction or benefit): the Python
dicts `{"label": ..., "amount": ...}`, with the derived `"fmt"` field. -/
structure Item where
  label : String
  amount : ℚ
  fmt : String
deriving DecidableEq

/-- `ot_amount = ot_hours * ot_rate`. -/
def ot_amount (ot_hours ot_rate : ℚ) : ℚ := ot_hours * ot_rate

/-- `total_allowances = sum(a['amount'] for a in allowances)`. -/
def total_allowances (allowances : List Item) : ℚ :=
  (allowances.map Item.amount).sum

/-- `total_deductions = sum(d['amount'] for d in deductions)`. -/
def total_deductions (deductions : List Item) : ℚ :=
  (deductions.map Item.amount).sum

/-- `total_earnings = base_salary + ot_amount + total_allowances`. -/
def total_earnings (base_salary ot_hours ot_rate : ℚ) (allowances : List Item) : ℚ :=
  base_salary + ot_amount ot_hours ot_rate + total_allowances allowances

/-- `net_pay = total_earnings - total_deductions`. -/
def net_pay (totalEarnings : ℚ) (deductions : List Item) : ℚ :=
  totalEarnings - total_deductions deductions

/-! ## The PDF renderer `create_payslip_pdf`

Coordinates are exact: one unit is `1/127` of a PostScript point, so that
reportlab's `mm = 72/25.4` points is the integer `360` and the A4 page
height `297*mm` is the integer `106920`.  `pt n` is `n` points.  The canvas
is modelled as the list of drawing operations it receives, in order; font
and colour changes are purely visual and are not modelled.  `c.showPage()`
is the `Op.showPage` marker separating pages. -/

/-- One millimetre, in coordinate units (reportlab: `mm = 72/25.4` points). -/
def mm : ℤ := 360

/-- `n` PostScript points, in coordinate units. -/
def pt (n : ℤ) : ℤ := 127 * n

/-- A4 page width, `210*mm` (reportlab `A4`). -/
def width : ℤ := 210 * mm

/-- A4 page height, `297*mm` (reportlab `A4`). -/
def height : ℤ := 297 * mm

/-- A drawing operation issued to the canvas. -/
inductive Op where
  | rect (x y w h : ℤ)
  | text (x y : ℤ) (s : String)
  | rtext (x y : ℤ) (s : String)
  | showPage
  | image (x y w h : ℤ)
deriving DecidableEq

/-- Embedding of the nested `check_page(y)` helper: if fewer than 80 points
remain, close the page and reset the cursor to `height - 80`. -/
def check_page (y : ℤ) : List Op × ℤ :=
  if y < pt 80 then ([Op.showPage], height - pt 80) else ([], y)

/-- Embedding of Python's `str.split("\n")` on the character list. -/
def splitNL : List Char → List (List Char)
  | [] => [[]]
  | c :: cs =>
    if c = '\n' then [] :: splitNL cs
    else
      match splitNL cs with
      | [] => [[c]]
      | l :: ls => (c :: l) :: ls

/-- Embedding of Python's `s.split("\n")`. -/
def pySplitLines (s : String) : List String := (splitNL s.data).map (fun l => ⟨l⟩)

/-- The overtime line label `f"Overtime ({ot_hours} hrs @ {fmt_ot_rate}/hr)"`
(the float rendering of `ot_hours` uses the `pyStr` stand-in). -/
def otLabel (ot_hours : ℚ) (fmt_ot_rate : String) : String :=
  "Overtime (" ++ pyStr (.num ot_hours) ++ " hrs @ " ++ fmt_ot_rate ++ "/hr)"

/-- The `data` dict handed to `create_payslip_pdf`. -/
structure PayslipData where
  company_name : String
  company_address : String
  company_phone : String
  date : String
  payslip_no : String
  employee_name : String
  employee_id : String
  position : String
  period : String
  ot_hours : ℚ
  fmt_base_salary : String
  fmt_ot_rate : String
  fmt_ot_amount : String
  allowances : List Item
  deductions : List Item
  benefits : List Item
  fmt_total_earnings : String
  fmt_total_deductions : String
  fmt_net_pay : String
deriving DecidableEq

/-- The header band: background rectangle, title, date, payslip number.
Drawn once, at the top of the function, before the body. -/
def headerOps (d : PayslipData) : List Op :=
  [Op.rect 0 (height - pt 80) width (pt 80),
   Op.text (pt 120) (height - pt 45) "Payslip",
   Op.text (pt 120) (height - pt 60) ("Date: " ++ d.date),
   Op.rtext (width - pt 40) (height - pt 45) ("Payslip No: " ++ d.payslip_no)]

/-- The `for line in data['company_address'].split("\n")` loop: each line at
the cursor, decrementing by 12 points, with no page check. -/
def addressLoop : List String → ℤ → List Op × ℤ
  | [], y => ([], y)
  | l :: ls, y =>
    let (ops, yEnd) := addressLoop ls (y - pt 12)
    (Op.text (pt 40) y l :: ops, yEnd)

/-- Company identity block followed by the employee information block
(name/ID row, position/period row); returns the cursor after the final
`y -= 28`. -/
def companyEmployee (d : PayslipData) (y : ℤ) : List Op × ℤ :=
  let ops1 := [Op.text (pt 40) y d.company_name]
  let (aops, y1) := addressLoop (pySplitLines d.company_address) (y - pt 14)
  let ops2 := [Op.text (pt 40) y1 ("Phone: " ++ d.company_phone)]
  let y2 := y1 - pt 24
  let ops3 := [Op.text (pt 40) y2 "Employee Information"]
  let y3 := y2 - pt 18
  let ops4 := [Op.text (pt 40) y3 ("Name: " ++ d.employee_name),
               Op.text (pt 300) y3 ("Employee ID: " ++ d.employee_id)]
  let y4 := y3 - pt 14
  let ops5 := [Op.text (pt 40) y4 ("Position: " ++ d.position),
               Op.text (pt 300) y4 ("Period: " ++ d.period)]
  (ops1 ++ aops ++ ops2 ++ ops3 ++ ops4 ++ ops5, y4 - pt 28)

/-- The `Earnings / Amount / Deductions / Amount` column headings row. -/
def ledgerHeaderRow (y : ℤ) : List Op :=
  [Op.text (pt 40) y "Earnings", Op.text (pt 300) y "Amount",
   Op.text (pt 380) y "Deductions", Op.text (pt 520) y "Amount"]

/-- One ledger row at height `y`: the earnings cell (label at x=40, amount
right-aligned at x=360) and, when present, the positionally paired deduction
cell (label at x=380, amount right-aligned at x=560). -/
def ledgerRow (y : ℤ) (labelText fmtText : String) (ded : Option Item) : List Op :=
  [Op.text (pt 40) y labelText, Op.rtext (pt 360) y fmtText] ++
    match ded with
    | some dd => [Op.text (pt 380) y dd.label, Op.rtext (pt 560) y dd.fmt]
    | none => []

/-- The `for i, a in enumerate(data["allowances"])` loop: allowance `i`
paired with `deductions[2 + i]` when `len(deductions) > 2 + i`, cursor
decremented by 14 and page-checked after each row. -/
def allowLoop (ds : List Item) : List Item → Nat → ℤ → List Op × ℤ
  | [], _, y => ([], y)
  | a :: as, i, y =>
    let row := ledgerRow y a.label a.fmt ds[2 + i]?
    let (brk, y2) := check_page (y - pt 14)
    let (rest, y3) := allowLoop ds as (i + 1) y2
    (row ++ brk ++ rest, y3)

/-- The ledger body, starting at the Base Salary row: base salary paired
with `deductions[0]`, the overtime line paired with `deductions[1]`, then
the allowances loop. -/
def ledgerBody (d : PayslipData) (y : ℤ) : List Op × ℤ :=
  let baseRow := ledgerRow y "Base Salary" d.fmt_base_salary d.deductions[0]?
  let (brk1, y1) := check_page (y - pt 14)
  let otRow := ledgerRow y1 (otLabel d.ot_hours d.fmt_ot_rate) d.fmt_ot_amount d.deductions[1]?
  let (brk2, y2) := check_page (y1 - pt 14)
  let (aops, y3) := allowLoop d.deductions d.allowances 0 y2
  (baseRow ++ brk1 ++ otRow ++ brk2 ++ aops, y3)

/-- Totals row and net pay line (no page check before either row; one check
after the final `y -= 30`). -/
def totalsSection (d : PayslipData) (y : ℤ) : List Op × ℤ :=
  let y1 := y - pt 10
  let ops1 := [Op.text (pt 40) y1 "Total Earnings", Op.rtext (pt 360) y1 d.fmt_total_earnings,
               Op.text (pt 380) y1 "Total Deductions", Op.rtext (pt 560) y1 d.fmt_total_deductions]
  let y2 := y1 - pt 22
  let ops2 := [Op.text (pt 40) y2 "Net Pay:", Op.rtext (pt 560) y2 d.fmt_net_pay]
  let (brk, y3) := check_page (y2 - pt 30)
  (ops1 ++ ops2 ++ brk, y3)

/-- The employer-paid benefits loop: one row per benefit (label, formatted
amount right-aligned), cursor decremented by 12 and page-checked after each. -/
def benefitsLoop : List Item → ℤ → List Op × ℤ
  | [], y => ([], y)
  | b :: bs, y =>
    let (brk, y2) := check_page (y - pt 12)
    let (rest, y3) := benefitsLoop bs y2
    (Op.text (pt 40) y b.label :: Op.rtext (pt 560) y b.fmt :: (brk ++ rest), y3)

/-- Stand-in for Python's `repr` of the benefit dict in `f"- {b}"` (the
second benefits loop prints the whole dict; its exact text is not modelled). -/
def dictStandIn (b : Item) : String := b.label

/-- The `Benefits (Non-financial)` loop: prints `f"- {b}"` per benefit. -/
def nonFinLoop : List Item → ℤ → List Op × ℤ
  | [], y => ([], y)
  | b :: bs, y =>
    let (brk, y2) := check_page (y - pt 12)
    let (rest, y3) := nonFinLoop bs y2
    (Op.text (pt 40) y ("- " ++ dictStandIn b) :: (brk ++ rest), y3)

/-- The cursor at the start of the body, `height - 110`. -/
def bodyStartY : ℤ := height - pt 110

/-- The cursor value entering the pre-ledger page check (after `y -= 28`). -/
def preLedgerY (d : PayslipData) : ℤ := (companyEmployee d bodyStartY).2

/-- The cursor at which the ledger heading row is drawn (post page check). -/
def ledgerHeadY (d : PayslipData) : ℤ := (check_page (preLedgerY d)).2

/-- Ledger body output and final cursor. -/
def ledgerOut (d : PayslipData) : List Op × ℤ := ledgerBody d (ledgerHeadY d - pt 14)

/-- Totals/net-pay output and final cursor. -/
def totalsOut (d : PayslipData) : List Op × ℤ := totalsSection d (ledgerOut d).2

/-- The cursor at which the `Employer-Paid Benefits` heading is drawn. -/
def benHeadY (d : PayslipData) : ℤ := (totalsOut d).2

/-- Employer-paid benefits rows and final cursor. -/
def benOut (d : PayslipData) : List Op × ℤ := benefitsLoop d.benefits (benHeadY d - pt 16)

/-- The cursor at which the `Benefits (Non-financial)` heading is drawn. -/
def nonFinHeadY (d : PayslipData) : ℤ := (benOut d).2

/-- Non-financial benefits rows and final cursor. -/
def nonFinOut (d : PayslipData) : List Op × ℤ := nonFinLoop d.benefits (nonFinHeadY d - pt 16)

/-- Embedding of `create_payslip_pdf(data, logo_bytes)`: the full, ordered
list of drawing operations.  Note that the Python body never references
`logo_bytes`; the parameter is accepted and ignored, and the embedding
mirrors that. -/
def create_payslip_pdf (d : PayslipData) (logo_bytes : Option (List Nat)) : List Op :=
  headerOps d
    ++ (companyEmployee d bodyStartY).1
    ++ (check_page (preLedgerY d)).1
    ++ ledgerHeaderRow (ledgerHeadY d)
    ++ (ledgerOut d).1
    ++ (totalsOut d).1
    ++ [Op.text (pt 40) (benHeadY d) "Employer-Paid Benefits"]
    ++ (benOut d).1
    ++ [Op.text (pt 40) (nonFinHeadY d) "Benefits (Non-financial)"]
    ++ (nonFinOut d).1

/-! ## Observation helpers on the operation list -/

/-- The string drawn by a text operation, if any. -/
def opString : Op → Option String
  | .text _ _ s => some s
  | .rtext _ _ s => some s
  | _ => none

/-- All strings drawn, in order. -/
def stringsOf (ops : List Op) : List String := ops.filterMap opString

/-- Is this operation the filled rectangle (the header band background)? -/
def isRect : Op → Bool
  | .rect _ _ _ _ => true
  | _ => false

/-- Is this operation an image-embedding operation? -/
def isImage : Op → Bool
  | .image _ _ _ _ => true
  | _ => false

/-- The vertical position of a text operation. -/
def textY : Op → Option ℤ
  | .text _ y _ => some y
  | .rtext _ y _ => some y
  | _ => none

/-- Does this text operation sit below the 80-point page-break threshold? -/
def belowThreshold (op : Op) : Bool :=
  match textY op with
  | some y => decide (y < pt 80)
  | none => false

/-- The string of a deduction-column label cell (a string drawn at x = 380). -/
def dedCellProj : Op → Option String
  | .text x _ s => if x = pt 380 then some s else none
  | _ => none

/-- The deduction-column label cells: strings drawn at x = 380, in order. -/
def dedCellTexts (ops : List Op) : List String :=
  ops.filterMap dedCellProj

/-- Split the operation list into pages at `showPage` markers. -/
def pages : List Op → List (List Op)
  | [] => [[]]
  | Op.showPage :: rest => [] :: pages rest
  | op :: rest =>
    match pages rest with
    | [] => [[op]]
    | p :: ps => (op :: p) :: ps

/-! ## Lemmas about digits and grouping -/

theorem digitsLE_lt : ∀ (fuel n : Nat), ∀ d ∈ digitsLE fuel n, d < 10
  | 0, _ => by simp [digitsLE]
  | _ + 1, 0 => by simp [digitsLE]
  | fuel + 1, n + 1 => by
    intro d hd
    simp only [digitsLE, List.mem_cons] at hd
    rcases hd with h | h
    · subst h; exact Nat.mod_lt _ (by omega)
    · exact digitsLE_lt fuel ((n + 1) / 10) d h

theorem digitsLE_ne_nil (n : Nat) (h : n ≠ 0) : digitsLE (n + 1) n ≠ [] := by
  cases n with
  | zero => exact absurd rfl h
  | succ m => simp [digitsLE]

theorem digitChar_bounds {d : Nat} (h : d < 10) :
    48 ≤ (digitChar d).toNat ∧ (digitChar d).toNat ≤ 57 := by
  interval_cases d <;> simp [digitChar]

theorem chunk3_flatten : ∀ l : List Char, (chunk3 l).flatten = l
  | [] => rfl
  | [_] => rfl
  | [_, _] => rfl
  | a :: b :: c :: rest => by
    simp only [chunk3, List.flatten_cons, chunk3_flatten rest]
    rfl

theorem mem_chunk3 {l : List Char} {ch : List Char} (hc : ch ∈ chunk3 l)
    {x : Char} (hx : x ∈ ch) : x ∈ l := by
  have : x ∈ (chunk3 l).flatten := List.mem_flatten.mpr ⟨ch, hc, hx⟩
  rwa [chunk3_flatten] at this

theorem mem_intersperse {α : Type} {sep : α} :
    ∀ {l : List α} {a : α}, a ∈ List.intersperse sep l → a = sep ∨ a ∈ l
  | [], a, h => by simp at h
  | [x], a, h => by
    simp only [List.intersperse_singleton, List.mem_singleton] at h
    exact Or.inr (by simp [h])
  | x :: y :: t, a, h => by
    simp only [List.intersperse_cons_cons, List.mem_cons] at h
    rcases h with h | h | h
    · exact Or.inr (by simp [h])
    · exact Or.inl h
    · rcases mem_intersperse h with h' | h'
      · exact Or.inl h'
      · exact Or.inr (List.mem_cons_of_mem _ h')

theorem filter_flatten_intersperse (sep : Char) :
    ∀ chunks : List (List Char), (∀ c ∈ chunks, ∀ x ∈ c, (x != sep) = true) →
      ((List.intersperse [sep] chunks).flatten).filter (fun x => x != sep) = chunks.flatten
  | [], _ => rfl
  | [a], h => by
    simp only [List.intersperse_singleton, List.flatten_cons, List.flatten_nil,
      List.append_nil]
    exact List.filter_eq_self.mpr (h a (by simp))
  | a :: b :: t, h => by
    have ih := filter_flatten_intersperse sep (b :: t)
      (fun c hc x hx => h c (List.mem_cons_of_mem _ hc) x hx)
    have ha : a.filter (fun x => x != sep) = a :=
      List.filter_eq_self.mpr (h a (by simp))
    simp only [List.intersperse_cons_cons, List.flatten_cons, List.filter_append, ha]
    have hsep : ([sep].filter (fun x => x != sep)) = [] := by simp
    simp only [List.flatten_cons] at ih
    simp [hsep, ih]

theorem pyGroup_chars {sep : Char} {n : Nat} {c : Char}
    (hc : c ∈ (pyGroup sep n).data) :
    c = sep ∨ (48 ≤ c.toNat ∧ c.toNat ≤ 57) := by
  by_cases h0 : n = 0
  · subst h0
    simp only [pyGroup, if_pos rfl] at hc
    have : c = '0' := by simpa using hc
    subst this
    exact Or.inr (by decide)
  · simp only [pyGroup, if_neg h0] at hc
    rw [List.mem_reverse] at hc
    obtain ⟨chunk, hchunk, hcm⟩ := List.mem_flatten.mp hc
    rcases mem_intersperse hchunk with h | h
    · subst h
      exact Or.inl (by simpa using hcm)
    · have hx := mem_chunk3 h hcm
      obtain ⟨d, hd, rfl⟩ := List.mem_map.mp hx
      exact Or.inr (digitChar_bounds (digitsLE_lt _ _ d hd))

theorem natStr_chars {n : Nat} {c : Char} (hc : c ∈ (natStr n).data) :
    48 ≤ c.toNat ∧ c.toNat ≤ 57 := by
  by_cases h0 : n = 0
  · subst h0
    have : c = '0' := by simpa [natStr] using hc
    subst this; decide
  · simp only [natStr, if_neg h0] at hc
    rw [List.mem_reverse] at hc
    obtain ⟨d, hd, rfl⟩ := List.mem_map.mp hc
    exact digitChar_bounds (digitsLE_lt _ _ d hd)

theorem natStr_ne_nil (n : Nat) : (natStr n).data ≠ [] := by
  by_cases h0 : n = 0
  · subst h0; simp [natStr]
  · simp only [natStr, if_neg h0]
    intro h
    rw [List.reverse_eq_nil_iff, List.map_eq_nil_iff] at h
    exact digitsLE_ne_nil n h0 h

theorem pyGroup_filter {sep : Char} (hsep : ∀ k, k < 10 → digitChar k ≠ sep)
    (n : Nat) :
    ((pyGroup sep n).data.filter (fun c => c != sep)) = (natStr n).data := by
  by_cases h0 : n = 0
  · subst h0
    have h00 : ('0' != sep) = true := by
      simpa using hsep 0 (by omega)
    simp [pyGroup, natStr, h00]
  · simp only [pyGroup, natStr, if_neg h0]
    rw [List.filter_reverse]
    congr 1
    conv_rhs => rw [← chunk3_flatten ((digitsLE (n + 1) n).map digitChar)]
    apply filter_flatten_intersperse
    intro ch hch x hx
    obtain ⟨d, hd, rfl⟩ := List.mem_map.mp (mem_chunk3 hch hx)
    simpa using hsep d (digitsLE_lt _ _ d hd)

theorem digitChar_ne_comma : ∀ k, k < 10 → digitChar k ≠ ',' := by
  intro k hk; interval_cases k <;> decide

/-! ## The rounding mode -/

/-- The integer-arithmetic rounding used by the embedding agrees with the
mathematical round-half-to-even on `ℚ`: values with fractional part below
one half round down, above one half round up, and exact halves round to the
even neighbour. -/
theorem pyRound_spec (q : ℚ) :
    pyRound q =
      if Int.fract q < 1 / 2 then ⌊q⌋
      else if (1 / 2 : ℚ) < Int.fract q then ⌊q⌋ + 1
      else if Even ⌊q⌋ then ⌊q⌋ else ⌊q⌋ + 1 := by
  have hden0 : (0 : ℚ) < (q.den : ℚ) := by exact_mod_cast q.pos
  have hnum : (q.num : ℚ) = q * (q.den : ℚ) :=
    (div_eq_iff (ne_of_gt hden0)).mp (Rat.num_div_den q)
  have hfl : q.num / (q.den : ℤ) = ⌊q⌋ := Rat.floor_def.symm
  have hcast : ((2 * (q.num - ⌊q⌋ * q.den) : ℤ) : ℚ) = 2 * (Int.fract q * (q.den : ℚ)) := by
    push_cast [Int.fract]
    rw [hnum]; ring
  have h1 : (2 * (q.num - ⌊q⌋ * q.den) < (q.den : ℤ)) ↔ Int.fract q < 1 / 2 := by
    constructor
    · intro h
      have h' : ((2 * (q.num - ⌊q⌋ * q.den) : ℤ) : ℚ) < ((q.den : ℕ) : ℚ) := by
        exact_mod_cast h
      rw [hcast] at h'
      by_contra hcon
      push_neg at hcon
      have := mul_le_mul_of_nonneg_right hcon (le_of_lt hden0)
      linarith
    · intro h
      have hm := mul_lt_mul_of_pos_right h hden0
      have h' : ((2 * (q.num - ⌊q⌋ * q.den) : ℤ) : ℚ) < ((q.den : ℕ) : ℚ) := by
        rw [hcast]; linarith
      exact_mod_cast h'
  have h2 : ((q.den : ℤ) < 2 * (q.num - ⌊q⌋ * q.den)) ↔ (1 / 2 : ℚ) < Int.fract q := by
    constructor
    · intro h
      have h' : ((q.den : ℕ) : ℚ) < ((2 * (q.num - ⌊q⌋ * q.den) : ℤ) : ℚ) := by
        exact_mod_cast h
      rw [hcast] at h'
      by_contra hcon
      push_neg at hcon
      have := mul_le_mul_of_nonneg_right hcon (le_of_lt hden0)
      linarith
    · intro h
      have hm := mul_lt_mul_of_pos_right h hden0
      have h' : ((q.den : ℕ) : ℚ) < ((2 * (q.num - ⌊q⌋ * q.den) : ℤ) : ℚ) := by
        rw [hcast]; linarith
      exact_mod_cast h'
  simp only [pyRound, roundHalfEvenInt, hfl, h1, h2, Int.even_iff]

/-- A nonnegative value rounds to a nonnegative integer. -/
theorem pyRound_nonneg {q : ℚ} (h : 0 ≤ q) : 0 ≤ pyRound q := by
  have hf : 0 ≤ ⌊q⌋ := Int.floor_nonneg.mpr h
  rw [pyRound_spec]
  split_ifs <;> omega

/-! ## String helpers and the formatter claims -/

theorem str_ext {s t : String} (h : s.data = t.data) : s = t := by
  cases s; cases t; exact congrArg String.mk h

theorem formatIDR_us (q : ℚ) (h : 0 ≤ q) :
    format_amount (.num q) "IDR" "US" = "Rp " ++ pyGroup ',' (pyRound q).toNat := by
  have h0 : ¬ pyRound q < 0 := not_lt.mpr (pyRound_nonneg h)
  have habs : (pyRound q).natAbs = (pyRound q).toNat := by omega
  simp [format_amount, pyGroupInt, h0, habs]

theorem replChar_data (a b : Char) (s : String) :
    (replChar a b s).data = s.data.map (fun c => if c = a then b else c) := rfl

theorem formatIDR_eu (q : ℚ) (h : 0 ≤ q) :
    format_amount (.num q) "IDR" "EU"
      = ⟨(format_amount (.num q) "IDR" "US").data.map
          (fun c => if c = ',' then '.' else c)⟩ := by
  have h0 : ¬ pyRound q < 0 := not_lt.mpr (pyRound_nonneg h)
  have habs : (pyRound q).natAbs = (pyRound q).toNat := by omega
  rw [formatIDR_us q h]
  have hlhs : format_amount (.num q) "IDR" "EU"
      = "Rp " ++ replChar ',' '.' (pyGroup ',' (pyRound q).toNat) := by
    simp [format_amount, pyGroupInt, h0, habs]
  rw [hlhs]
  apply str_ext
  simp only [String.data_append, replChar_data, List.map_append]
  congr 1

/-- C3: for every nonnegative amount, the IDR US-style output is exactly the
symbol `Rp`, one space, and the rounded integer grouped in threes from the
right with `,`; the output contains no `.`; removing the commas recovers the
plain decimal digit string of the rounded integer (so `,` is only inserted
as a separator between digits); and the EU-style output is the US one with
every `,` replaced by `.`. -/
theorem c3_idr_format (q : ℚ) (h : 0 ≤ q) :
    format_amount (.num q) "IDR" "US" = "Rp " ++ pyGroup ',' (pyRound q).toNat
    ∧ '.' ∉ (format_amount (.num q) "IDR" "US").data
    ∧ ((pyGroup ',' (pyRound q).toNat).data.filter (fun c => c != ','))
        = (natStr (pyRound q).toNat).data
    ∧ format_amount (.num q) "IDR" "EU"
        = ⟨(format_amount (.num q) "IDR" "US").data.map
            (fun c => if c = ',' then '.' else c)⟩ := by
  refine ⟨formatIDR_us q h, ?_, pyGroup_filter digitChar_ne_comma _, formatIDR_eu q h⟩
  rw [formatIDR_us q h]
  intro hc
  rw [String.data_append] at hc
  rcases List.mem_append.mp hc with hc | hc
  · exact absurd hc (by decide)
  · rcases pyGroup_chars hc with h' | h'
    · exact absurd h' (by decide)
    · exact absurd h'.1 (by decide)

/-- Witness for C3 at the concrete amount 1234567. -/
theorem c3_witness :
    (0 : ℚ) ≤ 1234567
    ∧ format_amount (.num 1234567) "IDR" "US" = "Rp 1,234,567"
    ∧ format_amount (.num 1234567) "IDR" "EU" = "Rp 1.234.567" := by
  have h := c3_idr_format 1234567 (by norm_num)
  refine ⟨by norm_num, h.1.trans (by decide), h.2.2.2.trans ?_⟩
  rw [h.1]
  decide

theorem twoDigits_chars {m : Nat} {c : Char} (hc : c ∈ (twoDigits m).data) :
    48 ≤ c.toNat ∧ c.toNat ≤ 57 := by
  have hc' : c = digitChar (m / 10 % 10) ∨ c = digitChar (m % 10) := by
    simpa [twoDigits] using hc
  rcases hc' with rfl | rfl
  · exact digitChar_bounds (Nat.mod_lt _ (by omega))
  · exact digitChar_bounds (Nat.mod_lt _ (by omega))

theorem pyFormat2f_chars {q : ℚ} {c : Char} (hc : c ∈ (pyFormat2f q).data) :
    c = '-' ∨ c = ',' ∨ c = '.' ∨ (48 ≤ c.toNat ∧ c.toNat ≤ 57) := by
  by_cases hq : q < 0 <;>
    simp only [pyFormat2f, hq, if_pos, if_neg, if_true, if_false, String.data_append,
      List.mem_append] at hc
  · rcases hc with ((hs | hg) | hd) | ht
    · exact Or.inl (by simpa using hs)
    · rcases pyGroup_chars hg with h' | h'
      · exact Or.inr (Or.inl h')
      · exact Or.inr (Or.inr (Or.inr h'))
    · exact Or.inr (Or.inr (Or.inl (by simpa using hd)))
    · exact Or.inr (Or.inr (Or.inr (twoDigits_chars ht)))
  · rcases hc with ((hs | hg) | hd) | ht
    · simp at hs
    · rcases pyGroup_chars hg with h' | h'
      · exact Or.inr (Or.inl h')
      · exact Or.inr (Or.inr (Or.inr h'))
    · exact Or.inr (Or.inr (Or.inl (by simpa using hd)))
    · exact Or.inr (Or.inr (Or.inr (twoDigits_chars ht)))

/-- C4: for every numeric value, the EU-style USD output is obtained from the
US-style one by swapping every `,` with `.` and vice versa, all other
characters identical. -/
theorem c4_usd_mirror (q : ℚ) :
    format_amount (.num q) "USD" "EU"
      = ⟨(format_amount (.num q) "USD" "US").data.map
          (fun c => if c = ',' then '.' else if c = '.' then ',' else c)⟩ := by
  have hsym : lookupSymbol "USD" = some "$" := rfl
  have hne1 := eq_false (by decide : ¬ (("USD" : String) = "IDR"))
  have hne2 := eq_false (by decide : ¬ (("US" : String) = "EU"))
  have heq3 := eq_true (show ("EU" : String) = "EU" from rfl)
  simp only [format_amount, hne1, if_false, hsym, hne2, heq3, if_true]
  apply str_ext
  simp only [String.data_append, replChar_data, List.map_map, List.map_append]
  have e1 : List.map (fun c => if c = ',' then '.' else if c = '.' then ',' else c) ['$']
      = ['$'] := by decide
  have e2 : List.map (fun c => if c = ',' then '.' else if c = '.' then ',' else c) [' ']
      = [' '] := by decide
  rw [e1, e2]
  congr 1
  apply List.map_congr_left
  intro c hcm
  rcases pyFormat2f_chars hcm with rfl | rfl | rfl | hb
  · decide
  · decide
  · decide
  · have h1 : c ≠ ',' := by intro he; subst he; exact absurd hb (by decide)
    have h2 : c ≠ '.' := by intro he; subst he; exact absurd hb (by decide)
    have h3 : c ≠ 'X' := by intro he; subst he; exact absurd hb (by decide)
    simp [Function.comp, h1, h2, h3]

/-- Currency codes outside the table make the symbol lookup fail. -/
theorem lookupSymbol_eq_none {c : String}
    (h : c ∉ ["IDR", "SGD", "USD", "GBP", "EUR"]) : lookupSymbol c = none := by
  simp only [List.mem_cons, not_or, List.not_mem_nil, not_false_iff, and_true] at h
  obtain ⟨h1, h2, h3, h4, h5⟩ := h
  have hfind : CURRENCY_SYMBOLS.find? (fun p => p.1 = c) = none := by
    rw [List.find?_eq_none]
    intro x hx
    fin_cases hx <;> simp_all [eq_comm]
  simp [lookupSymbol, hfind]

theorem digitRange_not_symbol {ch : Char} (hb : 48 ≤ ch.toNat ∧ ch.toNat ≤ 57) :
    ch ∉ (['R', 'p', 'S', '$', '£', '€'] : List Char) := by
  intro hm
  fin_cases hm <;> exact absurd hb (by decide)

theorem pyStr_num_chars {q : ℚ} {ch : Char} (hc : ch ∈ (pyStr (PyValue.num q)).data) :
    ch = '-' ∨ ch = '.' ∨ ch = '/' ∨ (48 ≤ ch.toNat ∧ ch.toNat ≤ 57) := by
  by_cases hq : q < 0 <;> by_cases hd : q.den = 1 <;>
    simp only [pyStr, hq, hd, if_pos, if_neg, if_true, if_false, String.data_append,
      List.mem_append] at hc <;>
    rcases hc with (hs | hn) | ht
  · exact Or.inl (by simpa using hs)
  · exact Or.inr (Or.inr (Or.inr (natStr_chars hn)))
  · rcases (by simpa using ht : ch = '.' ∨ ch = '0') with rfl | rfl
    · exact Or.inr (Or.inl rfl)
    · exact Or.inr (Or.inr (Or.inr (by decide)))
  · exact Or.inl (by simpa using hs)
  · exact Or.inr (Or.inr (Or.inr (natStr_chars hn)))
  · rcases ht with hss | hnn
    · exact Or.inr (Or.inr (Or.inl (by simpa using hss)))
    · exact Or.inr (Or.inr (Or.inr (natStr_chars hnn)))
  · simp at hs
  · exact Or.inr (Or.inr (Or.inr (natStr_chars hn)))
  · rcases (by simpa using ht : ch = '.' ∨ ch = '0') with rfl | rfl
    · exact Or.inr (Or.inl rfl)
    · exact Or.inr (Or.inr (Or.inr (by decide)))
  · simp at hs
  · exact Or.inr (Or.inr (Or.inr (natStr_chars hn)))
  · rcases ht with hss | hnn
    · exact Or.inr (Or.inr (Or.inl (by simpa using hss)))
    · exact Or.inr (Or.inr (Or.inr (natStr_chars hnn)))

theorem pyStr_num_ne_empty (q : ℚ) : pyStr (PyValue.num q) ≠ "" := by
  intro h
  have hdata : (pyStr (PyValue.num q)).data = [] := by rw [h]
  simp only [pyStr, String.data_append, List.append_eq_nil] at hdata
  exact natStr_ne_nil _ hdata.1.2

/-- C1 (amended): `format_amount` always returns; for every malformed input
(a string value, or a currency code outside the table) it returns exactly
the plain rendering of the raw value with no symbol prefixed; when the value
is numeric this fallback is non-empty and contains no character of any
currency symbol.  (The fallback is empty exactly when the raw value itself
renders empty, e.g. the empty-string value.) -/
theorem c1_amended :
    (∀ (v : PyValue) (c nf : String),
        ((∃ s, v = PyValue.str s) ∨ c ∉ ["IDR", "SGD", "USD", "GBP", "EUR"]) →
        format_amount v c nf = pyStr v)
    ∧ (∀ (q : ℚ) (c nf : String), c ∉ ["IDR", "SGD", "USD", "GBP", "EUR"] →
        format_amount (PyValue.num q) c nf ≠ ""
        ∧ ∀ ch ∈ (format_amount (PyValue.num q) c nf).data,
            ch ∉ (['R', 'p', 'S', '$', '£', '€'] : List Char)) := by
  have key : ∀ (q : ℚ) (c nf : String), c ∉ ["IDR", "SGD", "USD", "GBP", "EUR"] →
      format_amount (PyValue.num q) c nf = pyStr (PyValue.num q) := by
    intro q c nf hc
    have hidr : ¬ c = "IDR" := by
      intro h; subst h; exact hc (by decide)
    simp [format_amount, hidr, lookupSymbol_eq_none hc]
  constructor
  · rintro v c nf (⟨s, rfl⟩ | hc)
    · rfl
    · cases v with
      | str s => rfl
      | num q => exact key q c nf hc
  · intro q c nf hc
    rw [key q c nf hc]
    refine ⟨pyStr_num_ne_empty q, fun ch hch => ?_⟩
    rcases pyStr_num_chars hch with rfl | rfl | rfl | hb
    · decide
    · decide
    · decide
    · exact digitRange_not_symbol hb

/-- C1 as stated is false: the empty string is a non-numeric (malformed)
value, and the fallback rendering of the raw value is then empty, not
non-empty. -/
theorem c1_counterexample :
    format_amount (PyValue.str "") "USD" "US" = ""
    ∧ (format_amount (PyValue.str "") "USD" "US").length = 0 :=
  ⟨rfl, rfl⟩

/-- Witness for C1 (amended) at concrete malformed inputs. -/
theorem c1_witness :
    format_amount (PyValue.str "abc") "IDR" "US" = "abc"
    ∧ format_amount (PyValue.num 5) "XXX" "US" ≠ ""
    ∧ format_amount (PyValue.num 5) "XXX" "US" = pyStr (PyValue.num 5) := by
  have h1 := c1_amended.1 (PyValue.str "abc") "IDR" "US" (Or.inl ⟨"abc", rfl⟩)
  have h2 := c1_amended.2 5 "XXX" "US" (by decide)
  have h3 := c1_amended.1 (PyValue.num 5) "XXX" "US" (Or.inr (by decide))
  exact ⟨h1.trans (by decide), h2.1, h3⟩

/-- C10: the integer shown for IDR amounts comes from round-half-to-even:
2.5 formats as `Rp 2` and 3.5 as `Rp 4`; `pyRound` agrees with the
mathematical half-to-even characterisation for every rational, and at 2.5 it
differs from round-half-up (`⌊x + 1/2⌋`). -/
theorem c10_half_even :
    (mkRat 5 2 : ℚ) = 5 / 2
    ∧ (mkRat 7 2 : ℚ) = 7 / 2
    ∧ format_amount (.num (mkRat 5 2)) "IDR" "US" = "Rp 2"
    ∧ format_amount (.num (mkRat 7 2)) "IDR" "US" = "Rp 4"
    ∧ (∀ q : ℚ, pyRound q =
        if Int.fract q < 1 / 2 then ⌊q⌋
        else if (1 / 2 : ℚ) < Int.fract q then ⌊q⌋ + 1
        else if Even ⌊q⌋ then ⌊q⌋ else ⌊q⌋ + 1)
    ∧ pyRound (mkRat 5 2) ≠ ⌊(5 / 2 : ℚ) + 1 / 2⌋ := by
  refine ⟨by norm_num [Rat.mkRat_eq_div], by norm_num [Rat.mkRat_eq_div],
    by decide, by decide, pyRound_spec, ?_⟩
  have h1 : pyRound (mkRat 5 2) = 2 := by decide
  have h2 : ⌊(5 / 2 + 1 / 2 : ℚ)⌋ = 3 := by
    rw [show (5 / 2 + 1 / 2 : ℚ) = ((3 : ℤ) : ℚ) by norm_num]
    exact Int.floor_intCast 3
  rw [h1, h2]
  decide

/-- C2: the derived totals satisfy the stated invariant, and the two concrete
instances from the specification hold. -/
theorem c2_totals (base oh orate : ℚ) (as ds : List Item) :
    total_earnings base oh orate as = base + oh * orate + (as.map Item.amount).sum
    ∧ net_pay (total_earnings base oh orate as) ds
        = base + oh * orate + (as.map Item.amount).sum - (ds.map Item.amount).sum
    ∧ total_earnings 3000 10 20 [⟨"Transport", 500, "f"⟩] = 3700
    ∧ net_pay 3700 [⟨"Tax", 300, "f"⟩] = 3400 := by
  refine ⟨rfl, rfl, ?_, ?_⟩
  · simp [total_earnings, ot_amount, total_allowances]
    norm_num
  · simp [net_pay, total_deductions]
    norm_num

/-! ## Renderer lemmas -/

theorem check_page_brk (y : ℤ) :
    (check_page y).1 = [] ∨ (check_page y).1 = [Op.showPage] := by
  unfold check_page
  split_ifs <;> simp

theorem check_page_le (y : ℤ) : pt 80 ≤ (check_page y).2 := by
  unfold check_page
  split_ifs with h
  · decide
  · exact le_of_not_lt h

/-- The shape of a run of ledger rows: each row (earnings cell plus optional
positionally paired deduction cell) drawn at a single height, rows separated
by at most one page break. -/
inductive RowsShape : List Op → List ((String × String) × Option Item) → Prop
  | nil : RowsShape [] []
  | row (y : ℤ) (c : String × String) (dd : Option Item) (brk ops : List Op)
      (rows : List ((String × String) × Option Item)) :
      (brk = [] ∨ brk = [Op.showPage]) → RowsShape ops rows →
      RowsShape (ledgerRow y c.1 c.2 dd ++ (brk ++ ops)) ((c, dd) :: rows)

theorem allowLoop_shape (ds : List Item) :
    ∀ (as : List Item) (i : Nat) (y : ℤ),
      RowsShape (allowLoop ds as i y).1
        ((List.enumFrom i as).map (fun p => ((p.2.label, p.2.fmt), ds[2 + p.1]?))) := by
  intro as
  induction as with
  | nil => intro i y; exact RowsShape.nil
  | cons a as ih =>
    intro i y
    rcases hE : check_page (y - pt 14) with ⟨brk, y2⟩
    have hbrk : brk = [] ∨ brk = [Op.showPage] := by
      have h := check_page_brk (y - pt 14)
      rw [hE] at h
      exact h
    simp only [allowLoop, hE, List.enumFrom, List.map_cons]
    rw [List.append_assoc]
    exact RowsShape.row y (a.label, a.fmt) _ brk _ _ hbrk (ih (i + 1) y2)

/-- The rows of the two-column ledger, as the claim describes them: row 0 is
base salary against `deductions[0]`, row 1 the overtime line against
`deductions[1]`, row `2 + i` allowance `i` against `deductions[2 + i]`,
a missing deduction leaving the cell blank. -/
def ledgerRowsSpec (d : PayslipData) : List ((String × String) × Option Item) :=
  (("Base Salary", d.fmt_base_salary), d.deductions[0]?)
    :: ((otLabel d.ot_hours d.fmt_ot_rate, d.fmt_ot_amount), d.deductions[1]?)
    :: (List.enumFrom 0 d.allowances).map
        (fun p => ((p.2.label, p.2.fmt), d.deductions[2 + p.1]?))

theorem ledgerBody_shape (d : PayslipData) (y : ℤ) :
    RowsShape (ledgerBody d y).1 (ledgerRowsSpec d) := by
  rcases h1 : check_page (y - pt 14) with ⟨b1, y1⟩
  have hb1 : b1 = [] ∨ b1 = [Op.showPage] := by
    have h := check_page_brk (y - pt 14); rw [h1] at h; exact h
  rcases h2 : check_page (y1 - pt 14) with ⟨b2, y2⟩
  have hb2 : b2 = [] ∨ b2 = [Op.showPage] := by
    have h := check_page_brk (y1 - pt 14); rw [h2] at h; exact h
  simp only [ledgerBody, h1, h2, ledgerRowsSpec, List.append_assoc]
  refine RowsShape.row y ("Base Salary", d.fmt_base_salary) _ b1 _ _ hb1 ?_
  refine RowsShape.row y1 (otLabel d.ot_hours d.fmt_ot_rate, d.fmt_ot_amount) _ b2 _ _ hb2 ?_
  exact allowLoop_shape d.deductions d.allowances 0 y2

/-- The shape of the employer-paid benefits listing: one row per benefit,
its label at x = 40 and its formatted amount right-aligned at x = 560, rows
separated by at most one page break. -/
inductive BenShape : List Op → List Item → Prop
  | nil : BenShape [] []
  | row (y : ℤ) (b : Item) (brk ops : List Op) (bs : List Item) :
      (brk = [] ∨ brk = [Op.showPage]) → BenShape ops bs →
      BenShape (Op.text (pt 40) y b.label :: Op.rtext (pt 560) y b.fmt :: (brk ++ ops))
        (b :: bs)

theorem benefitsLoop_shape : ∀ (bs : List Item) (y : ℤ),
    BenShape (benefitsLoop bs y).1 bs := by
  intro bs
  induction bs with
  | nil => intro y; exact BenShape.nil
  | cons b bs ih =>
    intro y
    rcases hE : check_page (y - pt 12) with ⟨brk, y2⟩
    have hbrk : brk = [] ∨ brk = [Op.showPage] := by
      have h := check_page_brk (y - pt 12); rw [hE] at h; exact h
    simp only [benefitsLoop, hE]
    exact BenShape.row y b brk _ bs hbrk (ih y2)

/-! ## Membership descriptions of the loop outputs -/

theorem mem_addressLoop {op : Op} :
    ∀ {ls : List String} {y : ℤ}, op ∈ (addressLoop ls y).1 →
      ∃ yy s, op = Op.text (pt 40) yy s := by
  intro ls
  induction ls with
  | nil => intro y h; simp [addressLoop] at h
  | cons l ls ih =>
    intro y h
    simp only [addressLoop, List.mem_cons] at h
    rcases h with rfl | h
    · exact ⟨y, l, rfl⟩
    · exact ih h

theorem mem_ledgerRow {op : Op} {y : ℤ} {lt ft : String} {dd : Option Item}
    (h : op ∈ ledgerRow y lt ft dd) :
    (∃ s, op = Op.text (pt 40) y s) ∨ (∃ s, op = Op.rtext (pt 360) y s)
    ∨ (∃ s, op = Op.text (pt 380) y s) ∨ (∃ s, op = Op.rtext (pt 560) y s) := by
  cases dd with
  | none =>
    simp only [ledgerRow, List.append_nil, List.mem_cons, List.mem_singleton] at h
    rcases h with rfl | h
    · exact Or.inl ⟨lt, rfl⟩
    · rcases h with rfl | h
      · exact Or.inr (Or.inl ⟨ft, rfl⟩)
      · simp at h
  | some dv =>
    simp only [ledgerRow, List.mem_append, List.mem_cons, List.mem_singleton] at h
    rcases h with (rfl | rfl | h) | (rfl | rfl | h)
    · exact Or.inl ⟨lt, rfl⟩
    · exact Or.inr (Or.inl ⟨ft, rfl⟩)
    · simp at h
    · exact Or.inr (Or.inr (Or.inl ⟨dv.label, rfl⟩))
    · exact Or.inr (Or.inr (Or.inr ⟨dv.fmt, rfl⟩))
    · simp at h

theorem mem_brk {op : Op} {y : ℤ} (h : op ∈ (check_page y).1) : op = Op.showPage := by
  rcases check_page_brk y with he | he <;> rw [he] at h <;> simpa using h

theorem mem_allowLoop {op : Op} {ds : List Item} :
    ∀ {as : List Item} {i : Nat} {y : ℤ}, op ∈ (allowLoop ds as i y).1 →
      (∃ yy lt ft dd, op ∈ ledgerRow yy lt ft dd) ∨ op = Op.showPage := by
  intro as
  induction as with
  | nil => intro i y h; simp [allowLoop] at h
  | cons a as ih =>
    intro i y h
    rcases hE : check_page (y - pt 14) with ⟨brk, y2⟩
    rw [allowLoop] at h
    simp only [hE, List.mem_append] at h
    rcases h with (h | h) | h
    · exact Or.inl ⟨y, a.label, a.fmt, ds[2 + i]?, h⟩
    · right
      have hb : brk = (check_page (y - pt 14)).1 := by rw [hE]
      exact mem_brk (hb ▸ h)
    · exact ih h

theorem mem_ledgerBody {op : Op} {d : PayslipData} {y : ℤ}
    (h : op ∈ (ledgerBody d y).1) :
    (∃ yy lt ft dd, op ∈ ledgerRow yy lt ft dd) ∨ op = Op.showPage := by
  rcases h1 : check_page (y - pt 14) with ⟨b1, y1⟩
  rcases h2 : check_page (y1 - pt 14) with ⟨b2, y2⟩
  rw [ledgerBody] at h
  simp only [h1, h2, List.mem_append] at h
  rcases h with (((h | h) | h) | h) | h
  · exact Or.inl ⟨y, _, _, _, h⟩
  · have hb : b1 = (check_page (y - pt 14)).1 := by rw [h1]
    exact Or.inr (mem_brk (hb ▸ h))
  · exact Or.inl ⟨y1, _, _, _, h⟩
  · have hb : b2 = (check_page (y1 - pt 14)).1 := by rw [h2]
    exact Or.inr (mem_brk (hb ▸ h))
  · exact mem_allowLoop h

theorem mem_benefitsLoop {op : Op} :
    ∀ {bs : List Item} {y : ℤ}, op ∈ (benefitsLoop bs y).1 →
      (∃ yy s, op = Op.text (pt 40) yy s) ∨ (∃ yy s, op = Op.rtext (pt 560) yy s)
      ∨ op = Op.showPage := by
  intro bs
  induction bs with
  | nil => intro y h; simp [benefitsLoop] at h
  | cons b bs ih =>
    intro y h
    rcases hE : check_page (y - pt 12) with ⟨brk, y2⟩
    rw [benefitsLoop] at h
    simp only [hE, List.mem_cons, List.mem_append] at h
    rcases h with rfl | rfl | h | h
    · exact Or.inl ⟨y, b.label, rfl⟩
    · exact Or.inr (Or.inl ⟨y, b.fmt, rfl⟩)
    · have hb : brk = (check_page (y - pt 12)).1 := by rw [hE]
      exact Or.inr (Or.inr (mem_brk (hb ▸ h)))
    · exact ih h

theorem mem_nonFinLoop {op : Op} :
    ∀ {bs : List Item} {y : ℤ}, op ∈ (nonFinLoop bs y).1 →
      (∃ yy s, op = Op.text (pt 40) yy s) ∨ op = Op.showPage := by
  intro bs
  induction bs with
  | nil => intro y h; simp [nonFinLoop] at h
  | cons b bs ih =>
    intro y h
    rcases hE : check_page (y - pt 12) with ⟨brk, y2⟩
    rw [nonFinLoop] at h
    simp only [hE, List.mem_cons, List.mem_append] at h
    rcases h with rfl | h | h
    · exact Or.inl ⟨y, _, rfl⟩
    · have hb : brk = (check_page (y - pt 12)).1 := by rw [hE]
      exact Or.inr (mem_brk (hb ▸ h))
    · exact ih h

theorem mem_companyEmployee {op : Op} {d : PayslipData} {y : ℤ}
    (h : op ∈ (companyEmployee d y).1) :
    (∃ yy s, op = Op.text (pt 40) yy s) ∨ (∃ yy s, op = Op.text (pt 300) yy s) := by
  rcases hA : addressLoop (pySplitLines d.company_address) (y - pt 14) with ⟨aops, y1⟩
  rw [companyEmployee] at h
  simp only [hA, List.mem_append, List.mem_cons, List.not_mem_nil, or_false] at h
  have hb : aops = (addressLoop (pySplitLines d.company_address) (y - pt 14)).1 := by
    rw [hA]
  rcases h with ((((rfl | h) | rfl) | rfl) | h4) | h5
  · exact Or.inl ⟨y, _, rfl⟩
  · exact Or.inl (mem_addressLoop (hb ▸ h))
  · exact Or.inl ⟨_, _, rfl⟩
  · exact Or.inl ⟨_, _, rfl⟩
  · rcases h4 with rfl | rfl
    · exact Or.inl ⟨_, _, rfl⟩
    · exact Or.inr ⟨_, _, rfl⟩
  · rcases h5 with rfl | rfl
    · exact Or.inl ⟨_, _, rfl⟩
    · exact Or.inr ⟨_, _, rfl⟩

/-! ## The deduction-column cells -/

theorem dedCellTexts_append (l1 l2 : List Op) :
    dedCellTexts (l1 ++ l2) = dedCellTexts l1 ++ dedCellTexts l2 :=
  List.filterMap_append l1 l2 dedCellProj

theorem dedCellTexts_nil {ops : List Op} (h : ∀ op ∈ ops, dedCellProj op = none) :
    dedCellTexts ops = [] := by
  simpa [dedCellTexts] using h

theorem dedCellProj_text40 (yy : ℤ) (s : String) :
    dedCellProj (Op.text (pt 40) yy s) = none := by
  simp [dedCellProj, show ¬ (pt 40 = pt 380) by decide]

theorem dedCellProj_text300 (yy : ℤ) (s : String) :
    dedCellProj (Op.text (pt 300) yy s) = none := by
  simp [dedCellProj, show ¬ (pt 300 = pt 380) by decide]

theorem dedCellTexts_ledgerRow (y : ℤ) (lt ft : String) (dd : Option Item) :
    dedCellTexts (ledgerRow y lt ft dd) = (dd.map Item.label).toList := by
  cases dd <;>
    simp [ledgerRow, dedCellTexts, List.filterMap_cons, dedCellProj,
      show ¬ (pt 40 = pt 380) by decide]

theorem dedCellTexts_brk (y : ℤ) : dedCellTexts (check_page y).1 = [] := by
  rcases check_page_brk y with h | h <;> rw [h] <;> rfl

theorem take_drop_succ (ds : List Item) (k m : Nat) :
    (ds.drop k).take (m + 1) = ds[k]?.toList ++ (ds.drop (k + 1)).take m := by
  induction ds generalizing k with
  | nil => simp
  | cons a t ih =>
    cases k with
    | zero => simp
    | succ k => simpa using ih k

theorem optLabel_toList (o : Option Item) :
    (o.map Item.label).toList = o.toList.map Item.label := by
  cases o <;> rfl

theorem allowLoop_dedCells (ds : List Item) :
    ∀ (as : List Item) (i : Nat) (y : ℤ),
      dedCellTexts (allowLoop ds as i y).1
        = ((ds.drop (2 + i)).take as.length).map Item.label := by
  intro as
  induction as with
  | nil => intro i y; simp [allowLoop, dedCellTexts]
  | cons a as ih =>
    intro i y
    rcases hE : check_page (y - pt 14) with ⟨brk, y2⟩
    have hbrknil : dedCellTexts brk = [] := by
      have h := dedCellTexts_brk (y - pt 14)
      rw [hE] at h
      exact h
    simp only [allowLoop, hE]
    rw [dedCellTexts_append, dedCellTexts_append, dedCellTexts_ledgerRow, hbrknil,
      ih (i + 1) y2, List.length_cons, take_drop_succ ds (2 + i) as.length]
    simp [optLabel_toList, Nat.add_assoc]

theorem ledgerBody_dedCells (d : PayslipData) (y : ℤ) :
    dedCellTexts (ledgerBody d y).1
      = (d.deductions.take (2 + d.allowances.length)).map Item.label := by
  rcases h1 : check_page (y - pt 14) with ⟨b1, y1⟩
  rcases h2 : check_page (y1 - pt 14) with ⟨b2, y2⟩
  have hn1 : dedCellTexts b1 = [] := by
    have h := dedCellTexts_brk (y - pt 14); rw [h1] at h; exact h
  have hn2 : dedCellTexts b2 = [] := by
    have h := dedCellTexts_brk (y1 - pt 14); rw [h2] at h; exact h
  simp only [ledgerBody, h1, h2]
  rw [dedCellTexts_append, dedCellTexts_append, dedCellTexts_append, dedCellTexts_append,
    dedCellTexts_ledgerRow, dedCellTexts_ledgerRow, hn1, hn2,
    allowLoop_dedCells d.deductions d.allowances 0 y2]
  have e0 := take_drop_succ d.deductions 0 (d.allowances.length + 1)
  have e1 := take_drop_succ d.deductions 1 d.allowances.length
  simp only [List.drop_zero] at e0
  norm_num at e0 e1
  rw [show (2 : Nat) + d.allowances.length = d.allowances.length + 1 + 1 by omega, e0, e1]
  simp [optLabel_toList]

theorem dedCells_totals (d : PayslipData) (y : ℤ) :
    dedCellTexts (totalsSection d y).1 = ["Total Deductions"] := by
  rcases hE : check_page (y - pt 10 - pt 22 - pt 30) with ⟨brk, y3⟩
  have hn : dedCellTexts brk = [] := by
    have h := dedCellTexts_brk (y - pt 10 - pt 22 - pt 30); rw [hE] at h; exact h
  simp only [totalsSection, hE]
  rw [dedCellTexts_append, dedCellTexts_append, hn]
  simp [dedCellTexts, List.filterMap_cons, dedCellProj,
    show ¬ (pt 40 = pt 380) by decide]

theorem dedCells_header (d : PayslipData) : dedCellTexts (headerOps d) = [] := by
  simp [dedCellTexts, headerOps, List.filterMap_cons, dedCellProj,
    show ¬ (pt 120 = pt 380) by decide]

theorem dedCells_company (d : PayslipData) (y : ℤ) :
    dedCellTexts (companyEmployee d y).1 = [] := by
  apply dedCellTexts_nil
  intro op hop
  rcases mem_companyEmployee hop with ⟨yy, s, rfl⟩ | ⟨yy, s, rfl⟩
  · exact dedCellProj_text40 yy s
  · exact dedCellProj_text300 yy s

theorem dedCells_ledgerHeaderRow (y : ℤ) :
    dedCellTexts (ledgerHeaderRow y) = ["Deductions"] := by
  simp [dedCellTexts, ledgerHeaderRow, List.filterMap_cons, dedCellProj,
    show ¬ (pt 40 = pt 380) by decide, show ¬ (pt 300 = pt 380) by decide,
    show ¬ (pt 520 = pt 380) by decide]

theorem dedCells_benefitsLoop (bs : List Item) (y : ℤ) :
    dedCellTexts (benefitsLoop bs y).1 = [] := by
  apply dedCellTexts_nil
  intro op hop
  rcases mem_benefitsLoop hop with ⟨yy, s, rfl⟩ | ⟨yy, s, rfl⟩ | rfl
  · exact dedCellProj_text40 yy s
  · rfl
  · rfl

theorem dedCells_nonFinLoop (bs : List Item) (y : ℤ) :
    dedCellTexts (nonFinLoop bs y).1 = [] := by
  apply dedCellTexts_nil
  intro op hop
  rcases mem_nonFinLoop hop with ⟨yy, s, rfl⟩ | rfl
  · exact dedCellProj_text40 yy s
  · rfl

theorem pdf_dedCells (d : PayslipData) (l : Option (List Nat)) :
    dedCellTexts (create_payslip_pdf d l)
      = "Deductions" :: ((d.deductions.take (2 + d.allowances.length)).map Item.label
          ++ ["Total Deductions"]) := by
  rw [create_payslip_pdf]
  rw [dedCellTexts_append, dedCellTexts_append, dedCellTexts_append, dedCellTexts_append,
    dedCellTexts_append, dedCellTexts_append, dedCellTexts_append, dedCellTexts_append,
    dedCellTexts_append]
  rw [dedCells_header, dedCells_company, dedCellTexts_brk, dedCells_ledgerHeaderRow]
  rw [show (ledgerOut d).1 = (ledgerBody d (ledgerHeadY d - pt 14)).1 from rfl,
    ledgerBody_dedCells]
  rw [show (totalsOut d).1 = (totalsSection d (ledgerOut d).2).1 from rfl, dedCells_totals]
  rw [show (benOut d).1 = (benefitsLoop d.benefits (benHeadY d - pt 16)).1 from rfl,
    dedCells_benefitsLoop]
  rw [show (nonFinOut d).1 = (nonFinLoop d.benefits (nonFinHeadY d - pt 16)).1 from rfl,
    dedCells_nonFinLoop]
  simp [dedCellTexts, List.filterMap_cons, dedCellProj_text40]

/-! ## Every operation of the document body is a text, right-text or page break -/

theorem mem_totalsSection {op : Op} {d : PayslipData} {y : ℤ}
    (h : op ∈ (totalsSection d y).1) :
    (∃ x yy s, op = Op.text x yy s) ∨ (∃ x yy s, op = Op.rtext x yy s)
    ∨ op = Op.showPage := by
  rcases hE : check_page (y - pt 10 - pt 22 - pt 30) with ⟨brk, y3⟩
  rw [totalsSection] at h
  simp only [hE, List.mem_append, List.mem_cons, List.not_mem_nil, or_false] at h
  rcases h with (h | h) | h
  · rcases h with rfl | rfl | rfl | rfl
    · exact Or.inl ⟨_, _, _, rfl⟩
    · exact Or.inr (Or.inl ⟨_, _, _, rfl⟩)
    · exact Or.inl ⟨_, _, _, rfl⟩
    · exact Or.inr (Or.inl ⟨_, _, _, rfl⟩)
  · rcases h with rfl | rfl
    · exact Or.inl ⟨_, _, _, rfl⟩
    · exact Or.inr (Or.inl ⟨_, _, _, rfl⟩)
  · have hb : brk = (check_page (y - pt 10 - pt 22 - pt 30)).1 := by rw [hE]
    exact Or.inr (Or.inr (mem_brk (hb ▸ h)))

/-- The header band text operations (everything of the header band except
the background rectangle). -/
def headerTextOps (d : PayslipData) : List Op :=
  [Op.text (pt 120) (height - pt 45) "Payslip",
   Op.text (pt 120) (height - pt 60) ("Date: " ++ d.date),
   Op.rtext (width - pt 40) (height - pt 45) ("Payslip No: " ++ d.payslip_no)]

/-- Everything the renderer draws after the header band rectangle. -/
def pdfTail (d : PayslipData) : List Op :=
  headerTextOps d
    ++ (companyEmployee d bodyStartY).1
    ++ (check_page (preLedgerY d)).1
    ++ ledgerHeaderRow (ledgerHeadY d)
    ++ (ledgerOut d).1
    ++ (totalsOut d).1
    ++ [Op.text (pt 40) (benHeadY d) "Employer-Paid Benefits"]
    ++ (benOut d).1
    ++ [Op.text (pt 40) (nonFinHeadY d) "Benefits (Non-financial)"]
    ++ (nonFinOut d).1

theorem pdf_eq_cons (d : PayslipData) (l : Option (List Nat)) :
    create_payslip_pdf d l
      = Op.rect 0 (height - pt 80) width (pt 80) :: pdfTail d := by
  simp [create_payslip_pdf, headerOps, headerTextOps, pdfTail]

theorem mem_pdfTail {d : PayslipData} {op : Op} (h : op ∈ pdfTail d) :
    (∃ x yy s, op = Op.text x yy s) ∨ (∃ x yy s, op = Op.rtext x yy s)
    ∨ op = Op.showPage := by
  simp only [pdfTail, List.mem_append] at h
  rcases h with ((((((((h | h) | h) | h) | h) | h) | h) | h) | h) | h
  · rcases (by simpa [headerTextOps] using h :
        op = Op.text (pt 120) (height - pt 45) "Payslip"
        ∨ op = Op.text (pt 120) (height - pt 60) ("Date: " ++ d.date)
        ∨ op = Op.rtext (width - pt 40) (height - pt 45)
            ("Payslip No: " ++ d.payslip_no)) with rfl | rfl | rfl
    · exact Or.inl ⟨_, _, _, rfl⟩
    · exact Or.inl ⟨_, _, _, rfl⟩
    · exact Or.inr (Or.inl ⟨_, _, _, rfl⟩)
  · rcases mem_companyEmployee h with ⟨yy, s, rfl⟩ | ⟨yy, s, rfl⟩
    · exact Or.inl ⟨_, _, _, rfl⟩
    · exact Or.inl ⟨_, _, _, rfl⟩
  · exact Or.inr (Or.inr (mem_brk h))
  · rcases (by simpa [ledgerHeaderRow] using h :
        op = Op.text (pt 40) (ledgerHeadY d) "Earnings"
        ∨ op = Op.text (pt 300) (ledgerHeadY d) "Amount"
        ∨ op = Op.text (pt 380) (ledgerHeadY d) "Deductions"
        ∨ op = Op.text (pt 520) (ledgerHeadY d) "Amount") with rfl | rfl | rfl | rfl
    · exact Or.inl ⟨_, _, _, rfl⟩
    · exact Or.inl ⟨_, _, _, rfl⟩
    · exact Or.inl ⟨_, _, _, rfl⟩
    · exact Or.inl ⟨_, _, _, rfl⟩
  · rw [show (ledgerOut d).1 = (ledgerBody d (ledgerHeadY d - pt 14)).1 from rfl] at h
    rcases mem_ledgerBody h with ⟨yy, lt, ft, dd, hr⟩ | rfl
    · rcases mem_ledgerRow hr with ⟨s, rfl⟩ | ⟨s, rfl⟩ | ⟨s, rfl⟩ | ⟨s, rfl⟩
      · exact Or.inl ⟨_, _, _, rfl⟩
      · exact Or.inr (Or.inl ⟨_, _, _, rfl⟩)
      · exact Or.inl ⟨_, _, _, rfl⟩
      · exact Or.inr (Or.inl ⟨_, _, _, rfl⟩)
    · exact Or.inr (Or.inr rfl)
  · rw [show (totalsOut d).1 = (totalsSection d (ledgerOut d).2).1 from rfl] at h
    exact mem_totalsSection h
  · rcases (by simpa using h : op = Op.text (pt 40) (benHeadY d) "Employer-Paid Benefits")
      with rfl
    exact Or.inl ⟨_, _, _, rfl⟩
  · rw [show (benOut d).1 = (benefitsLoop d.benefits (benHeadY d - pt 16)).1 from rfl] at h
    rcases mem_benefitsLoop h with ⟨yy, s, rfl⟩ | ⟨yy, s, rfl⟩ | rfl
    · exact Or.inl ⟨_, _, _, rfl⟩
    · exact Or.inr (Or.inl ⟨_, _, _, rfl⟩)
    · exact Or.inr (Or.inr rfl)
  · rcases (by simpa using h : op = Op.text (pt 40) (nonFinHeadY d) "Benefits (Non-financial)")
      with rfl
    exact Or.inl ⟨_, _, _, rfl⟩
  · rw [show (nonFinOut d).1 = (nonFinLoop d.benefits (nonFinHeadY d - pt 16)).1 from rfl] at h
    rcases mem_nonFinLoop h with ⟨yy, s, rfl⟩ | rfl
    · exact Or.inl ⟨_, _, _, rfl⟩
    · exact Or.inr (Or.inr rfl)

theorem pdfTail_not_rect {d : PayslipData} {op : Op} (h : op ∈ pdfTail d) :
    isRect op = false := by
  rcases mem_pdfTail h with ⟨x, yy, s, rfl⟩ | ⟨x, yy, s, rfl⟩ | rfl <;> rfl

theorem pdf_not_image {d : PayslipData} {l : Option (List Nat)} {op : Op}
    (h : op ∈ create_payslip_pdf d l) : isImage op = false := by
  rw [pdf_eq_cons] at h
  rcases List.mem_cons.mp h with rfl | h
  · rfl
  · rcases mem_pdfTail h with ⟨x, yy, s, rfl⟩ | ⟨x, yy, s, rfl⟩ | rfl <;> rfl

/-! ## Pages -/

theorem pages_cons_ne (op : Op) (rest : List Op) (h : op ≠ Op.showPage) :
    pages (op :: rest)
      = match pages rest with
        | [] => [[op]]
        | p :: ps => (op :: p) :: ps := by
  cases op with
  | showPage => exact absurd rfl h
  | rect a b c dd => rfl
  | text a b s => rfl
  | rtext a b s => rfl
  | image a b c dd => rfl

theorem pages_all (P : Op → Prop) :
    ∀ ops : List Op, (∀ op ∈ ops, P op) → ∀ p ∈ pages ops, ∀ op ∈ p, P op := by
  intro ops
  induction ops with
  | nil =>
    intro _ p hp op hop
    simp only [pages, List.mem_singleton] at hp
    subst hp
    simp at hop
  | cons o rest ih =>
    intro h p hp op hop
    have hrest : ∀ x ∈ rest, P x := fun x hx => h x (List.mem_cons_of_mem _ hx)
    by_cases ho : o = Op.showPage
    · subst ho
      rw [show pages (Op.showPage :: rest) = [] :: pages rest from rfl] at hp
      rcases List.mem_cons.mp hp with rfl | hp
      · simp at hop
      · exact ih hrest p hp op hop
    · rw [pages_cons_ne o rest ho] at hp
      rcases hP : pages rest with _ | ⟨p0, ps⟩
      · rw [hP] at hp
        simp only [List.mem_singleton] at hp
        subst hp
        have he := List.mem_singleton.mp hop
        subst he
        exact h _ (List.mem_cons_self _ _)
      · rw [hP] at hp
        rcases List.mem_cons.mp hp with rfl | hp
        · rcases List.mem_cons.mp hop with he | hop2
          · subst he
            exact h _ (List.mem_cons_self _ _)
          · exact ih hrest p0 (by rw [hP]; exact List.mem_cons_self p0 ps) op hop2
        · exact ih hrest p (by rw [hP]; exact List.mem_cons_of_mem _ hp) op hop

theorem pages_tail_all (P : Op → Prop) (o : Op) (rest : List Op) (ho : o ≠ Op.showPage)
    (h : ∀ op ∈ rest, P op) :
    ∀ p ∈ (pages (o :: rest)).tail, ∀ op ∈ p, P op := by
  rw [pages_cons_ne o rest ho]
  rcases hP : pages rest with _ | ⟨p0, ps⟩
  · simp
  · intro p hp
    have hmem : p ∈ pages rest := by
      rw [hP]
      exact List.mem_cons_of_mem _ (by simpa using hp)
    exact pages_all P rest h p hmem

/-! ## Cursor bounds inside the checked loops -/

theorem check_page_reset {y : ℤ} (h : y < pt 80) :
    check_page y = ([Op.showPage], height - pt 80) := by
  simp [check_page, h]

theorem allowLoop_above (ds : List Item) :
    ∀ (as : List Item) (i : Nat) (y : ℤ), pt 80 ≤ y →
      ∀ op ∈ (allowLoop ds as i y).1, ∀ yv, textY op = some yv → pt 80 ≤ yv := by
  intro as
  induction as with
  | nil => intro i y _ op hop; simp [allowLoop] at hop
  | cons a as ih =>
    intro i y hy op hop yv hyv
    rcases hE : check_page (y - pt 14) with ⟨brk, y2⟩
    have hy2 : pt 80 ≤ y2 := by
      have h := check_page_le (y - pt 14)
      rw [hE] at h
      exact h
    rw [allowLoop] at hop
    simp only [hE, List.mem_append] at hop
    rcases hop with (hr | hb) | ht
    · rcases mem_ledgerRow hr with ⟨s, rfl⟩ | ⟨s, rfl⟩ | ⟨s, rfl⟩ | ⟨s, rfl⟩ <;>
        (simp only [textY, Option.some_inj] at hyv; omega)
    · have hbe : brk = (check_page (y - pt 14)).1 := by rw [hE]
      have hsp : op = Op.showPage := mem_brk (hbe ▸ hb)
      subst hsp
      simp [textY] at hyv
    · exact ih (i + 1) y2 hy2 op ht yv hyv

theorem benefitsLoop_above :
    ∀ (bs : List Item) (y : ℤ), pt 80 ≤ y →
      ∀ op ∈ (benefitsLoop bs y).1, ∀ yv, textY op = some yv → pt 80 ≤ yv := by
  intro bs
  induction bs with
  | nil => intro y _ op hop; simp [benefitsLoop] at hop
  | cons b bs ih =>
    intro y hy op hop yv hyv
    rcases hE : check_page (y - pt 12) with ⟨brk, y2⟩
    have hy2 : pt 80 ≤ y2 := by
      have h := check_page_le (y - pt 12)
      rw [hE] at h
      exact h
    rw [benefitsLoop] at hop
    simp only [hE, List.mem_cons, List.mem_append] at hop
    rcases hop with rfl | rfl | hb | ht
    · simp only [textY, Option.some_inj] at hyv; omega
    · simp only [textY, Option.some_inj] at hyv; omega
    · have hbe : brk = (check_page (y - pt 12)).1 := by rw [hE]
      have hsp : op = Op.showPage := mem_brk (hbe ▸ hb)
      subst hsp
      simp [textY] at hyv
    · exact ih y2 hy2 op ht yv hyv

/-! ## Concrete payslip data for the counterexamples -/

/-- A minimal well-formed payslip record (one-line address, no line items). -/
def baseData : PayslipData :=
  { company_name := "C", company_address := "A", company_phone := "P"
    date := "2025-01-01", payslip_no := "PSL-1"
    employee_name := "E", employee_id := "ID", position := "Pos", period := "Jan"
    ot_hours := 0
    fmt_base_salary := "Rp 0", fmt_ot_rate := "Rp 0", fmt_ot_amount := "Rp 0"
    allowances := [], deductions := [], benefits := []
    fmt_total_earnings := "Rp 0", fmt_total_deductions := "Rp 0", fmt_net_pay := "Rp 0" }

/-- No allowances but three deductions: indices 2 and above are never drawn. -/
def dC5 : PayslipData :=
  { baseData with deductions := [⟨"D1", 0, "F1"⟩, ⟨"D2", 0, "F2"⟩, ⟨"D3", 0, "F3"⟩] }

/-- Forty allowances: enough rows to overflow onto a second page. -/
def dC7 : PayslipData :=
  { baseData with allowances := List.replicate 40 ⟨"A", 0, "Rp 0"⟩ }

/-- Thirty-five allowances: the ledger ends just above the threshold, so the
unchecked totals row lands below it. -/
def dC8 : PayslipData :=
  { baseData with allowances := List.replicate 35 ⟨"A", 0, "Rp 0"⟩ }

/-- Data used to exercise the ignored logo parameter. -/
def dC9 : PayslipData :=
  { baseData with benefits := [⟨"Health", 0, "Rp 0"⟩] }

/-! ## Renderer claims -/

/-- C5 (amended): ledger rows pair earnings to deductions positionally by
index (row 0 base salary with `deductions[0]`, row 1 the overtime line with
`deductions[1]`, row `2 + i` allowance `i` with `deductions[2 + i]`, blank
cell when the deduction is missing) -- but only deductions with index below
`2 + number of allowances` are rendered: the earnings rows drive the loop,
and any further deductions are silently dropped from the document. -/
theorem c5_amended (d : PayslipData) (y : ℤ) (l : Option (List Nat)) :
    RowsShape (ledgerBody d y).1 (ledgerRowsSpec d)
    ∧ dedCellTexts (ledgerBody d y).1
        = (d.deductions.take (2 + d.allowances.length)).map Item.label
    ∧ dedCellTexts (create_payslip_pdf d l)
        = "Deductions" :: ((d.deductions.take (2 + d.allowances.length)).map Item.label
            ++ ["Total Deductions"]) :=
  ⟨ledgerBody_shape d y, ledgerBody_dedCells d y, pdf_dedCells d l⟩

/-- C5 as stated is false: with no allowances and three deductions, the third
deduction line item (label and amount) never appears anywhere in the
rendered document, although the first two do. -/
theorem c5_counterexample :
    dC5.deductions.length = 3
    ∧ "D1" ∈ stringsOf (create_payslip_pdf dC5 none)
    ∧ "D2" ∈ stringsOf (create_payslip_pdf dC5 none)
    ∧ "D3" ∉ stringsOf (create_payslip_pdf dC5 none)
    ∧ "F3" ∉ stringsOf (create_payslip_pdf dC5 none)
    ∧ dedCellTexts (create_payslip_pdf dC5 none)
        = ["Deductions", "D1", "D2", "Total Deductions"] :=
  ⟨rfl, by decide, by decide, by decide, by decide, by decide⟩

/-- C6: the employer-paid benefits section is the run of operations following
its heading, and it consists of exactly one row per benefit line item: the
label at x = 40 and the formatted amount right-aligned at x = 560, with at
most a page break between consecutive rows. -/
theorem c6_benefit_rows (d : PayslipData) (l : Option (List Nat)) :
    BenShape (benOut d).1 d.benefits
    ∧ create_payslip_pdf d l
        = (headerOps d ++ (companyEmployee d bodyStartY).1 ++ (check_page (preLedgerY d)).1
            ++ ledgerHeaderRow (ledgerHeadY d) ++ (ledgerOut d).1 ++ (totalsOut d).1
            ++ [Op.text (pt 40) (benHeadY d) "Employer-Paid Benefits"])
          ++ ((benOut d).1
          ++ ([Op.text (pt 40) (nonFinHeadY d) "Benefits (Non-financial)"]
              ++ (nonFinOut d).1)) := by
  constructor
  · rw [show (benOut d).1 = (benefitsLoop d.benefits (benHeadY d - pt 16)).1 from rfl]
    exact benefitsLoop_shape d.benefits _
  · simp [create_payslip_pdf, List.append_assoc]

/-- C7 (amended): the header band is drawn exactly once, as the very first
operation of the document; it is never re-drawn, so continuation pages after
a page break contain no header band rectangle. -/
theorem c7_amended (d : PayslipData) (l : Option (List Nat)) :
    (create_payslip_pdf d l).head? = some (Op.rect 0 (height - pt 80) width (pt 80))
    ∧ (create_payslip_pdf d l).filter isRect = [Op.rect 0 (height - pt 80) width (pt 80)]
    ∧ ∀ p ∈ (pages (create_payslip_pdf d l)).tail, ∀ op ∈ p, isRect op = false := by
  refine ⟨?_, ?_, ?_⟩
  · rw [pdf_eq_cons]
    rfl
  · rw [pdf_eq_cons]
    have h2 : (pdfTail d).filter isRect = [] := by
      rw [List.filter_eq_nil_iff]
      intro a ha
      simp [pdfTail_not_rect ha]
    simp [List.filter_cons, h2, isRect]
  · rw [pdf_eq_cons]
    exact pages_tail_all _ _ _ (by simp) (fun op hop => pdfTail_not_rect hop)

/-- C7 as stated is false: this document spans two pages, yet its second page
contains neither the header band rectangle nor the title text. -/
theorem c7_counterexample :
    (pages (create_payslip_pdf dC7 none)).length = 2
    ∧ ((pages (create_payslip_pdf dC7 none)).getD 1 []) ≠ []
    ∧ ((pages (create_payslip_pdf dC7 none)).getD 1 []).all
        (fun op => !isRect op && opString op ≠ some "Payslip") = true :=
  ⟨by decide, by decide, by decide⟩

/-- C8 (amended): when the space check runs and fewer than 80 points remain,
it closes the page and resets the cursor to the fixed offset `height - 80`,
and the post-check cursor is always at or above the threshold; consequently
inside the checked loops (the allowance rows and the benefits rows) every
row entered at or above the threshold is drawn at or above it.  The check,
however, runs only after each such row (and before the ledger header), not
before every row: the company block, the totals row, the net-pay line and
the section headings are emitted without any check and can fall below the
threshold. -/
theorem c8_amended :
    (∀ y : ℤ, y < pt 80 → check_page y = ([Op.showPage], height - pt 80))
    ∧ (∀ y : ℤ, pt 80 ≤ (check_page y).2)
    ∧ (∀ (ds as : List Item) (i : Nat) (y : ℤ), pt 80 ≤ y →
        ∀ op ∈ (allowLoop ds as i y).1, ∀ yv, textY op = some yv → pt 80 ≤ yv)
    ∧ (∀ (bs : List Item) (y : ℤ), pt 80 ≤ y →
        ∀ op ∈ (benefitsLoop bs y).1, ∀ yv, textY op = some yv → pt 80 ≤ yv) :=
  ⟨fun _ hy => check_page_reset hy, check_page_le,
   fun ds as i y hy => allowLoop_above ds as i y hy,
   fun bs y hy => benefitsLoop_above bs y hy⟩

/-- Witness for C8 (amended) at concrete cursor positions. -/
theorem c8_witness :
    check_page (pt 79) = ([Op.showPage], height - pt 80)
    ∧ (pt 80 : ℤ) ≤ pt 100 :=
  ⟨c8_amended.1 (pt 79) (by decide),
   c8_amended.2.2.1 [] [⟨"A", 0, "f"⟩] 0 (pt 100) (by decide)
     (Op.text (pt 40) (pt 100) "A") (by decide) (pt 100) rfl⟩

/-- C8 as stated is false: the totals row is emitted with no preceding space
check; here it lands at 10146 units (79.89 points), below the 80-point
threshold, without any page break. -/
theorem c8_counterexample :
    Op.text (pt 40) 10146 "Total Earnings" ∈ create_payslip_pdf dC8 none
    ∧ (10146 : ℤ) < pt 80
    ∧ (create_payslip_pdf dC8 none).any belowThreshold = true :=
  ⟨by decide, by decide, by decide⟩

/-- C9: the renderer accepts the logo bytes parameter but never embeds it:
rendering with a logo (here the PNG-magic prefix bytes) produces exactly the
operations produced without one, no image-embedding operation is ever
issued, and in general the output is independent of the logo argument. -/
theorem c9_logo_ignored :
    create_payslip_pdf dC9 (some [137, 80, 78, 71]) = create_payslip_pdf dC9 none
    ∧ (create_payslip_pdf dC9 (some [137, 80, 78, 71])).all (fun op => !isImage op) = true
    ∧ ∀ (d : PayslipData) (l : Option (List Nat)),
        create_payslip_pdf d l = create_payslip_pdf d none
        ∧ ∀ op ∈ create_payslip_pdf d l, isImage op = false :=
  ⟨rfl, by decide, fun _ l => ⟨rfl, fun _ hop => pdf_not_image hop⟩⟩

end PayslipGen
